import Mathlib

/-!
Shallow embedding of `undervolt.c` (AMD Family 14h P-state Vid editor).

Modelling conventions:
* `uint64_t` values are `Nat` kept below `2 ^ 64`; every C operation that can
  wrap is followed by an explicit `% 2 ^ 64` (resp. `% 2 ^ 32` for `unsigned`).
* C `float` / `double` arithmetic is modelled by exact rational arithmetic
  (`ℚ`).  Every claim about the divisor/voltage functions only exercises
  quarter-integer and small linear values, on which IEEE float/double
  arithmetic is exact, so the rational model coincides with the C program.
* Float-to-integer conversions in C truncate toward zero; on the non-negative
  values reached here that is `Int.floor` followed by `Int.toNat`.
* The `/dev/cpu/N/msr` device is an external oracle (`Hw` below); the
  open/seek/io/close life cycle inside `rdmsr`/`wrmsr` is modelled separately
  (`MsrFile`), with one boolean per syscall outcome.
-/

/-- `voltage` (undervolt.c:58-62): Vid → volts.  Vids in [0x7C,0x7F] are the
"off" encoding and yield 0; otherwise `1.550 - 0.0125 * SviVid`. -/
def voltage (SviVid : ℤ) : ℚ :=
  if SviVid ≤ 0x7F ∧ 0x7C ≤ SviVid then 0
  else 1.550 - 0.0125 * SviVid

/-- `msrtodiv` (undervolt.c:179-190): extract DidMSD = bits [8:4] and
DidLSD = bits [3:0] of the MSR word, return `msd + lsd*0.25 + 1`.
(`checkdid` only prints diagnostics and does not affect the value.) -/
def msrtodiv (val : ℕ) : ℚ :=
  let didmsd : ℕ := (val >>> 4) &&& 0x1f
  let didlsd : ℕ := val &&& 0xf
  (didmsd : ℚ) + (didlsd : ℚ) * (1/4) + 1

/-- `divtomsr` (undervolt.c:193-204): `didmsd = (unsigned)(div - 1)`,
`didlsd = (unsigned)((div - (int)div) * 4)`, then
`*msr = (*msr & ~(uint64_t)0x1ff) | (didmsd << 4) | didlsd`.
`~(uint64_t)0x1ff = 2^64 - 0x200`; the `<< 4` happens on a 32-bit
`unsigned`, hence the `% 2 ^ 32`. -/
def divtomsr (div : ℚ) (msr : ℕ) : ℕ :=
  let didmsd : ℕ := (⌊div - 1⌋).toNat
  let frac : ℚ := div - (⌊div⌋ : ℚ)
  let didlsd : ℕ := (⌊frac * 4⌋).toNat
  (msr &&& (2 ^ 64 - 0x200)) ||| (((didmsd <<< 4) % 2 ^ 32) ||| didlsd)

/-- Mask `~(0x7F << 9)` as it reaches the 64-bit AND in undervolt.c:307:
the `int` value `~0xFE00` is sign-extended to `uint64_t`, giving
`0xFFFFFFFFFFFF01FF`. -/
def maskNotVid : ℕ := 2 ^ 64 - 0xFE01

/-- Vid-field write (undervolt.c:307):
`val = (oMSR[i] & (~(0x7F << 9))) | (vidToSet[i] << 9)`.
`vidToSet[i]` is a `uint64_t`, so the shift wraps at `2 ^ 64`. -/
def encodeVid (w vid : ℕ) : ℕ :=
  (w &&& maskNotVid) ||| ((vid <<< 9) % 2 ^ 64)

/-- Vid-field read (undervolt.c:293 and 306): `(oMSR[i] >> 9) & 0x7F`. -/
def decodeVid (w : ℕ) : ℕ :=
  (w >>> 9) &&& 0x7F

/-- Current-P-state field of MSR 0xC0010071 as printed by `-c`
(undervolt.c:333): `(val >> 16) & 0x03`. -/
def currentPstateField (val : ℕ) : ℕ :=
  (val >>> 16) &&& 0x03

/-- Outcome of the syscalls made by one `rdmsr`/`wrmsr` call: does `open`
succeed, does `lseek` succeed, how many bytes does `read`/`write` report
(`ssize_t`, may be negative), does `close` succeed. -/
structure MsrFile where
  openOk : Bool
  seekOk : Bool
  ioBytes : ℤ
  closeOk : Bool
deriving DecidableEq, Repr

/-- What one `rdmsr`/`wrmsr` call did with its file descriptor, plus its
return value. -/
structure FdTrace where
  openedFd : Bool
  closedFd : Bool
  ret : ℕ
deriving DecidableEq, Repr

/-- `rdmsr` (undervolt.c:377-405) descriptor life cycle: open failure returns
1 with nothing acquired; seek failure and short read return 1 *without*
closing; otherwise `close` is called and the call returns 0 (1 if `close`
itself fails). -/
def rdmsr (f : MsrFile) : FdTrace :=
  if f.openOk = false then ⟨false, false, 1⟩
  else if f.seekOk = false then ⟨true, false, 1⟩
  else if f.ioBytes < 8 then ⟨true, false, 1⟩
  else if f.closeOk = false then ⟨true, true, 1⟩
  else ⟨true, true, 0⟩

/-- `wrmsr` (undervolt.c:343-371) descriptor life cycle: identical branch
structure to `rdmsr`, with `write` in place of `read`. -/
def wrmsr (f : MsrFile) : FdTrace :=
  if f.openOk = false then ⟨false, false, 1⟩
  else if f.seekOk = false then ⟨true, false, 1⟩
  else if f.ioBytes < 8 then ⟨true, false, 1⟩
  else if f.closeOk = false then ⟨true, true, 1⟩
  else ⟨true, true, 0⟩

/-- One parsed `-p <pstateId>:<vid>[,<div>]` option, after the `sscanf` in
undervolt.c:243 succeeded (`div` stays 0.0 when not supplied, mirroring
undervolt.c:242). -/
structure PReq where
  pstateId : ℤ
  vid : ℤ
  div : ℚ
deriving DecidableEq, Repr

/-- C `int` → `uint64_t` conversion (assignment undervolt.c:254). -/
def toU64 (v : ℤ) : ℕ := (v % (2 ^ 64 : ℤ)).toNat

/-- The mutable option-state of `main`: `vidToSet` / `divToSet`
(undervolt.c:211-217), both zero-initialised; the `-p` index stays in
[0,8), so we only ever update/read indices below 8. -/
structure Config where
  vidToSet : ℕ → ℕ
  divToSet : ℕ → ℚ

def initConfig : Config := ⟨fun _ => 0, fun _ => 0⟩

/-- Processing of one `-p` option (undervolt.c:248-256): reject an index
outside [0,8) ("P-state %d is out of bounds", exit 1), reject an index whose
`vidToSet` slot is already nonzero ("Duplicate -p %d: option", exit 1),
otherwise record vid (as `uint64_t`) and div. -/
def procPReq (cfg : Config) (r : PReq) : Option Config :=
  if r.pstateId < 0 ∨ 8 ≤ r.pstateId then none
  else
    if cfg.vidToSet r.pstateId.toNat ≠ 0 then none
    else some ⟨Function.update cfg.vidToSet r.pstateId.toNat (toU64 r.vid),
               Function.update cfg.divToSet r.pstateId.toNat r.div⟩

/-- The whole `getopt` loop restricted to its `-p` branch: options are
processed left to right, the first bad one exits the program. -/
def procPReqs : Config → List PReq → Option Config
  | cfg, [] => some cfg
  | cfg, r :: rest =>
    match procPReq cfg r with
    | none => none
    | some cfg2 => procPReqs cfg2 rest

/-- One hardware access performed by `main`, or one range complaint printed
by the validity loop (undervolt.c:280-284). -/
inductive Event where
  | readMsr (cpu msr : ℕ)
  | writeMsr (cpu msr val : ℕ)
  | rangeWarn (pstate : ℕ)
deriving DecidableEq, Repr

/-- The `/dev/cpu/N/msr` oracle: whether `rdmsr` succeeds for a (cpu, msr)
pair and what value it returns, and whether `wrmsr` succeeds. -/
structure Hw where
  readOk : ℕ → ℕ → Bool
  readVal : ℕ → ℕ → ℕ
  writeOk : ℕ → ℕ → ℕ → Bool

/-- The MSR addresses `aMSR` of the 8 P-state registers (undervolt.c:216).
Indices only ever range over [0,8) in `main`. -/
def aMSR : ℕ → ℕ
  | 0 => 0xC0010064
  | 1 => 0xC0010065
  | 2 => 0xC0010066
  | 3 => 0xC0010067
  | 4 => 0xC0010068
  | 5 => 0xC0010069
  | 6 => 0xC001006A
  | 7 => 0xC001006B
  | _ => 0

/-- A loop body that, like every hardware loop in `main`, reports the events
it produced; a `false` flag means `main` called `exit(1)` inside the body,
aborting the rest of the loop (and the program). -/
def runAbortLoop {α : Type} (step : α → List Event × Bool) : List α → List Event × Bool
  | [] => ([], true)
  | a :: rest =>
    if (step a).2 = true then
      ((step a).1 ++ (runAbortLoop step rest).1, (runAbortLoop step rest).2)
    else ((step a).1, false)

/-- Value of the status register MSR 0xC0010061 (undervolt.c:268). -/
def statusVal (hw : Hw) : ℕ := hw.readVal 0 0xC0010061 % 2 ^ 64

/-- `minPstate = val & 0x07` (undervolt.c:274). -/
def minPstate (hw : Hw) : ℕ := statusVal hw &&& 0x07

/-- `maxPstate = (val & 0x70) >> 4` (undervolt.c:273). -/
def maxPstate (hw : Hw) : ℕ := (statusVal hw &&& 0x70) >>> 4

/-- The index sequence of the `for(i = minPstate; i <= maxPstate; i++)`
loops in `main`. -/
def pstateIdxs (hw : Hw) : List ℕ :=
  List.range' (minPstate hw) (maxPstate hw + 1 - minPstate hw)

/-- The complaints of the validity loop (undervolt.c:280-284): one
"Error: P-state %d is not valid" line per index with a pending vid outside
[minPstate, maxPstate]; the loop never exits. -/
def warnEvents (cfg : Config) (hw : Hw) : List Event :=
  (List.range 8).filterMap fun i =>
    if cfg.vidToSet i ≠ 0 ∧ (maxPstate hw < i ∨ i < minPstate hw) then
      some (.rangeWarn i)
    else none

/-- One step of the `-r` read loop (undervolt.c:288-295): read
`aMSR[i]` on cpu 0, abort on failure. -/
def readStep (hw : Hw) (i : ℕ) : List Event × Bool :=
  ([.readMsr 0 (aMSR i)], hw.readOk 0 (aMSR i))

/-- The value written for P-state `i` on cpu `j` (undervolt.c:306-316): the
fresh register value with the Vid field replaced, and, when a divisor was
requested, the divisor field replaced by `divtomsr`. -/
def writeVal (hw : Hw) (cfg : Config) (j i : ℕ) : ℕ :=
  let o := hw.readVal j (aMSR i) % 2 ^ 64
  let v1 := encodeVid o (cfg.vidToSet i)
  if cfg.divToSet i ≠ 0 then divtomsr (cfg.divToSet i) v1 else v1

/-- The per-cpu body of the write loop (undervolt.c:302-320): read
`aMSR[i]` on cpu `j` (abort on failure), then write the updated value
(abort on failure). -/
def writeCpuStep (hw : Hw) (cfg : Config) (i j : ℕ) : List Event × Bool :=
  if hw.readOk j (aMSR i) = false then ([.readMsr j (aMSR i)], false)
  else
    ([.readMsr j (aMSR i), .writeMsr j (aMSR i) (writeVal hw cfg j i)],
     hw.writeOk j (aMSR i) (writeVal hw cfg j i))

/-- The per-P-state body of the write loop (undervolt.c:298-322): indices
whose `vidToSet` slot is zero are skipped entirely. -/
def writeStep (hw : Hw) (cfg : Config) (ncpu i : ℕ) : List Event × Bool :=
  if cfg.vidToSet i ≠ 0 then
    runAbortLoop (writeCpuStep hw cfg i) (List.range ncpu)
  else ([], true)

/-- One step of the `-c` loop (undervolt.c:326-336): read MSR 0xC0010071 on
cpu `i`, abort on failure. -/
def currentStep (hw : Hw) (i : ℕ) : List Event × Bool :=
  ([.readMsr i 0xC0010071], hw.readOk i 0xC0010071)

/-- `main` (undervolt.c:210-339) as a function from the parsed `-p` options,
the `-r`/`-c` flags, the verdict of `cpuIdCheck`, the core count and the
hardware oracle to the sequence of hardware accesses / range complaints and
the process exit status.  Faithful to the source, the `cpuIdCheck()` call at
undervolt.c:266 has its return value discarded, so `cpuIdOk` is unused. -/
def mainRun (reqs : List PReq) (readF currentF cpuIdOk : Bool) (ncpu : ℕ)
    (hw : Hw) : List Event × ℕ :=
  match procPReqs initConfig reqs with
  | none => ([], 1)
  | some cfg =>
    let _ := cpuIdOk
    if hw.readOk 0 0xC0010061 = false then ([.readMsr 0 0xC0010061], 1)
    else
      let warns := warnEvents cfg hw
      let r := if readF then runAbortLoop (readStep hw) (pstateIdxs hw)
               else ([], true)
      if r.2 = false then ([.readMsr 0 0xC0010061] ++ warns ++ r.1, 1)
      else
        let wr := runAbortLoop (writeStep hw cfg ncpu) (pstateIdxs hw)
        if wr.2 = false then
          ([.readMsr 0 0xC0010061] ++ warns ++ r.1 ++ wr.1, 1)
        else
          let c := if currentF then
                     runAbortLoop (currentStep hw) (List.range ncpu)
                   else ([], true)
          ([.readMsr 0 0xC0010061] ++ warns ++ r.1 ++ wr.1 ++ c.1,
           if c.2 = false then 1 else 0)

/-- The option-state `main` ends up with when the `getopt` loop succeeds
(junk value `initConfig` otherwise; only used under that success). -/
def cfgOf (reqs : List PReq) : Config :=
  (procPReqs initConfig reqs).getD initConfig

/-- An always-successful hardware oracle whose registers all read 0. -/
def hwZero : Hw := ⟨fun _ _ => true, fun _ _ => 0, fun _ _ _ => true⟩

/-- An always-successful oracle whose registers all read 0x20
(so `maxPstate = 2`, `minPstate = 0`). -/
def hw20 : Hw := ⟨fun _ _ => true, fun _ _ => 0x20, fun _ _ _ => true⟩

-- Quick sanity examples (concrete evaluations of the codec).
example : voltage 0x28 = 1.05 := by norm_num [voltage]
example : decodeVid (encodeVid 0 0x28) = 0x28 := by decide
example : mainRun [] false false false 1 hwZero = ([.readMsr 0 0xC0010061], 0) := by decide

/-! ## Bit-level helper lemmas -/

/-- A value below `2 ^ k` has no set bit at position `k` or above. -/
theorem tb_high {n : ℕ} (k : ℕ) {i : ℕ} (hn : n < 2 ^ k) (hk : k ≤ i) :
    Nat.testBit n i = false :=
  Nat.testBit_lt_two_pow
    (lt_of_lt_of_le hn (Nat.pow_le_pow_right (by norm_num) hk))

/-- Below position 64 and outside the Vid field, `maskNotVid` is all ones. -/
theorem maskNotVid_tb_out : ∀ i < 64, i < 9 ∨ 15 < i →
    Nat.testBit maskNotVid i = true := by decide

/-- On the Vid field [15:9], `maskNotVid` is all zeros. -/
theorem maskNotVid_tb_mid : ∀ i < 16, 9 ≤ i →
    Nat.testBit maskNotVid i = false := by decide

/-- The divisor mask `~0x1ff` is zero on its cleared field [8:0]. -/
theorem maskDiv_tb_low : ∀ i < 9, Nat.testBit (2 ^ 64 - 0x200) i = false := by
  decide

theorem maskNotVid_lt : maskNotVid < 2 ^ 64 := by decide

/-- Inside the Vid field, `encodeVid` exposes the bits of the shifted vid. -/
theorem encodeVid_testBit_field (w id i : ℕ) (h9 : 9 ≤ i) (h15 : i ≤ 15) :
    Nat.testBit (encodeVid w id) i = Nat.testBit id (i - 9) := by
  simp only [encodeVid, Nat.testBit_or, Nat.testBit_and, Nat.testBit_mod_two_pow,
    Nat.testBit_shiftLeft]
  rw [maskNotVid_tb_mid i (by omega) h9]
  simp [show i < 64 by omega, h9]

/-- Outside the Vid field, `encodeVid` (with a 7-bit vid) preserves the
bits of a 64-bit word. -/
theorem encodeVid_testBit_out (w id i : ℕ) (hw : w < 2 ^ 64) (hid : id ≤ 0x7F)
    (hi : i < 9 ∨ 15 < i) :
    Nat.testBit (encodeVid w id) i = Nat.testBit w i := by
  rcases Nat.lt_or_ge i 64 with h64 | h64
  · simp only [encodeVid, Nat.testBit_or, Nat.testBit_and, Nat.testBit_mod_two_pow,
      Nat.testBit_shiftLeft]
    rw [maskNotVid_tb_out i h64 hi]
    rcases hi with h | h
    · simp [show ¬ 9 ≤ i by omega, show i < 64 from h64]
    · have hid0 : Nat.testBit id (i - 9) = false :=
        tb_high 7 (by omega) (by omega)
      simp [hid0, show i < 64 from h64]
  · have h1 : Nat.testBit w i = false := tb_high 64 hw h64
    have h2 : Nat.testBit (encodeVid w id) i = false := by
      refine tb_high 64 ?_ h64
      exact Nat.or_lt_two_pow
        (lt_of_le_of_lt Nat.and_le_right maskNotVid_lt)
        (Nat.mod_lt _ (by norm_num))
    rw [h1, h2]

/-- Decoding after encoding recovers a 7-bit vid. -/
theorem decodeVid_encodeVid (w id : ℕ) (hid : id ≤ 0x7F) :
    decodeVid (encodeVid w id) = id := by
  apply Nat.eq_of_testBit_eq
  intro i
  simp only [decodeVid, Nat.testBit_and, Nat.testBit_shiftRight,
    show (0x7F : ℕ) = 2 ^ 7 - 1 from rfl, Nat.testBit_two_pow_sub_one]
  rcases Nat.lt_or_ge i 7 with h7 | h7
  · rw [encodeVid_testBit_field w id (9 + i) (by omega) (by omega)]
    simp [show 9 + i - 9 = i by omega, h7]
  · have hid0 : Nat.testBit id i = false := tb_high 7 (by omega) h7
    simp [hid0, show ¬ i < 7 by omega]

/-- Low divisor sub-field of the word built by `divtomsr`. -/
theorem divbits_low (w m f : ℕ) (_hm : m ≤ 31) (hf : f ≤ 3) :
    ((w &&& (2 ^ 64 - 0x200)) ||| ((m <<< 4) ||| f)) &&& 0xf = f := by
  apply Nat.eq_of_testBit_eq
  intro i
  simp only [Nat.testBit_and, Nat.testBit_or, Nat.testBit_shiftLeft,
    show (0xf : ℕ) = 2 ^ 4 - 1 from rfl, Nat.testBit_two_pow_sub_one]
  rcases Nat.lt_or_ge i 4 with h4 | h4
  · rw [maskDiv_tb_low i (by omega)]
    simp [show ¬ i ≥ 4 by omega, h4]
  · have hf0 : Nat.testBit f i = false := tb_high 4 (by omega) h4
    simp [hf0, show ¬ i < 4 by omega]

/-- High divisor sub-field of the word built by `divtomsr`. -/
theorem divbits_high (w m f : ℕ) (hm : m ≤ 31) (hf : f ≤ 3) :
    (((w &&& (2 ^ 64 - 0x200)) ||| ((m <<< 4) ||| f)) >>> 4) &&& 0x1f = m := by
  apply Nat.eq_of_testBit_eq
  intro i
  simp only [Nat.testBit_and, Nat.testBit_shiftRight, Nat.testBit_or,
    Nat.testBit_shiftLeft, show (0x1f : ℕ) = 2 ^ 5 - 1 from rfl,
    Nat.testBit_two_pow_sub_one]
  rcases Nat.lt_or_ge i 5 with h5 | h5
  · rw [maskDiv_tb_low (4 + i) (by omega)]
    have hfb : Nat.testBit f (4 + i) = false := tb_high 4 (by omega) (by omega)
    simp [hfb, show 4 + i ≥ 4 by omega, show 4 + i - 4 = i by omega, h5]
  · have hm0 : Nat.testBit m i = false := tb_high 5 (by omega) h5
    simp [hm0, show ¬ i < 5 by omega]

/-- Value of `divtomsr` on a representable quarter-integer divisor
`n + f/4` with `1 ≤ n ≤ 32`, `f ≤ 3`: the two sub-fields are `n - 1`
and `f`. -/
theorem divtomsr_quarter (n f w : ℕ) (h1 : 1 ≤ n) (h2 : n ≤ 32) (hf : f ≤ 3) :
    divtomsr ((n : ℚ) + (f : ℚ) / 4) w
      = (w &&& (2 ^ 64 - 0x200)) ||| (((n - 1) <<< 4) ||| f) := by
  have hf0 : (0 : ℚ) ≤ (f : ℚ) / 4 := by positivity
  have hf1 : (f : ℚ) / 4 < 1 := by
    rw [div_lt_one (by norm_num)]
    exact_mod_cast lt_of_le_of_lt hf (by norm_num)
  have hz : ⌊(f : ℚ) / 4⌋ = 0 := Int.floor_eq_zero_iff.mpr ⟨hf0, hf1⟩
  have hfloor1 : ⌊(n : ℚ) + (f : ℚ) / 4 - 1⌋ = (n : ℤ) - 1 := by
    rw [show (n : ℚ) + (f : ℚ) / 4 - 1 = (f : ℚ) / 4 + ((n : ℤ) - 1 : ℤ) by
      push_cast; ring]
    rw [Int.floor_add_int, hz]; ring
  have hfloor2 : ⌊(n : ℚ) + (f : ℚ) / 4⌋ = (n : ℤ) := by
    rw [show (n : ℚ) + (f : ℚ) / 4 = (f : ℚ) / 4 + (n : ℤ) by push_cast; ring]
    rw [Int.floor_add_int, hz]; ring
  have hfrac : ((n : ℚ) + (f : ℚ) / 4 - (((n : ℤ) : ℚ))) * 4 = (f : ℚ) := by
    push_cast; ring
  have hffloor : ⌊(f : ℚ)⌋ = (f : ℤ) := Int.floor_natCast f
  simp only [divtomsr, hfloor1, hfloor2, hfrac, hffloor]
  have ht1 : ((n : ℤ) - 1).toNat = n - 1 := by omega
  have ht2 : ((f : ℤ)).toNat = f := by omega
  rw [ht1, ht2]
  have hmod : ((n - 1) <<< 4) % 2 ^ 32 = (n - 1) <<< 4 := by
    apply Nat.mod_eq_of_lt
    rw [Nat.shiftLeft_eq]
    calc (n - 1) * 2 ^ 4 ≤ 31 * 2 ^ 4 := by
          exact Nat.mul_le_mul_right _ (by omega)
      _ < 2 ^ 32 := by norm_num
  rw [hmod]

/-! ## Claim theorems: the P-state codec -/

/-- C3: the claim as frozen is false.  The source (undervolt.c:307) computes
`(oMSR & ~(0x7F << 9)) | (vidToSet << 9)` without masking the requested vid
to 7 bits, so a requested identifier of 0x80 (accepted by the `-p` parser)
sets bit 16: on the word 0 the result is 0x10000, although the claim
requires every bit outside [15:9] (bit 16 included) to be untouched. -/
theorem claim_C3_counterexample :
    encodeVid 0 0x80 = 0x10000
    ∧ Nat.testBit (encodeVid 0 0x80) 16 ≠ Nat.testBit 0 16 := by decide

/-- C3 (amended): for every 64-bit word and every requested identifier in
[0, 0x7F], the encoding clears bits [15:9], sets them to `id & 0x7F`, and
leaves all other bits untouched.  (Identifiers above 0x7F spill their high
bits into bit positions ≥ 16 instead of being masked off.) -/
theorem claim_C3_amended (w id : ℕ) (hw : w < 2 ^ 64) (hid : id ≤ 0x7F) :
    (∀ i, 9 ≤ i → i ≤ 15 →
        Nat.testBit (encodeVid w id) i = Nat.testBit (id &&& 0x7F) (i - 9))
    ∧ (∀ i, i < 9 ∨ 15 < i →
        Nat.testBit (encodeVid w id) i = Nat.testBit w i) := by
  constructor
  · intro i h9 h15
    rw [encodeVid_testBit_field w id i h9 h15,
      show (0x7F : ℕ) = 2 ^ 7 - 1 from rfl,
      Nat.and_pow_two_sub_one_of_lt_two_pow (by omega)]
  · intro i hi
    exact encodeVid_testBit_out w id i hw hid hi

/-- C3 amended, checked at the concrete input w = 0x1234, id = 0x28. -/
theorem claim_C3_amended_witness :
    Nat.testBit (encodeVid 0x1234 0x28) 9 = Nat.testBit (0x28 &&& 0x7F) 0
    ∧ Nat.testBit (encodeVid 0x1234 0x28) 3 = Nat.testBit 0x1234 3 :=
  ⟨(claim_C3_amended 0x1234 0x28 (by norm_num) (by norm_num)).1 9 (by norm_num)
      (by norm_num),
   (claim_C3_amended 0x1234 0x28 (by norm_num) (by norm_num)).2 3
      (Or.inl (by norm_num))⟩

/-- C4: for identifiers in [0,127], decode after encode is the identity and
every bit outside [15:9] of the 64-bit word is unchanged. -/
theorem claim_C4 (w id : ℕ) (hw : w < 2 ^ 64) (hid : id ≤ 127) :
    decodeVid (encodeVid w id) = id
    ∧ (∀ i, ¬ (9 ≤ i ∧ i ≤ 15) →
        Nat.testBit (encodeVid w id) i = Nat.testBit w i) := by
  refine ⟨decodeVid_encodeVid w id hid, fun i hi => ?_⟩
  exact encodeVid_testBit_out w id i hw hid (by omega)

/-- C4, checked at the concrete input w = 0xDEAD0000, id = 0x55. -/
theorem claim_C4_witness :
    decodeVid (encodeVid 0xDEAD0000 0x55) = 0x55
    ∧ Nat.testBit (encodeVid 0xDEAD0000 0x55) 17
        = Nat.testBit 0xDEAD0000 17 :=
  ⟨(claim_C4 0xDEAD0000 0x55 (by norm_num) (by norm_num)).1,
   (claim_C4 0xDEAD0000 0x55 (by norm_num) (by norm_num)).2 17 (by omega)⟩

/-- C5: the claim as frozen is false.  The divisor d = 33 is of the
required form (integer + 0) and is ≥ 1.0, but `divtomsr` stores
`didmsd = 32`, whose fifth bit falls outside the DidMSD field [8:4], so
decoding returns 1, not 33. -/
theorem claim_C5_counterexample :
    msrtodiv (divtomsr (33 : ℚ) 0) = 1 ∧ (1 : ℚ) ≠ 33 := by
  constructor
  · have h : divtomsr (33 : ℚ) 0 = 512 := by
      simp only [divtomsr]; norm_num; decide
    have h1 : (512 >>> 4 &&& 0x1f : ℕ) = 0 := by decide
    have h2 : (512 &&& 0xf : ℕ) = 0 := by decide
    rw [h]; simp only [msrtodiv, h1, h2]; norm_num
  · norm_num

/-- C5 (amended): the round trip `msrtodiv (divtomsr d w) = d` holds for
every 64-bit word and every representable divisor `d = n + f/4`
(`f ∈ {0,1,2,3}`) with `1 ≤ d ≤ 32.75`, i.e. as long as `d - 1` fits the
5-bit DidMSD field; for larger representable divisors the field overflows
and the round trip fails. -/
theorem claim_C5_amended (n f w : ℕ) (h1 : 1 ≤ n) (h2 : n ≤ 32) (hf : f ≤ 3) :
    msrtodiv (divtomsr ((n : ℚ) + (f : ℚ) / 4) w) = (n : ℚ) + (f : ℚ) / 4 := by
  rw [divtomsr_quarter n f w h1 h2 hf]
  simp only [msrtodiv]
  rw [divbits_high w (n - 1) f (by omega) hf, divbits_low w (n - 1) f (by omega) hf]
  have hc : ((n - 1 : ℕ) : ℚ) = (n : ℚ) - 1 := by
    push_cast [h1]; ring
  rw [hc]; ring

/-- C5 amended, checked at d = 11.5 (n = 11, f = 2), w = 0xABCD. -/
theorem claim_C5_amended_witness :
    msrtodiv (divtomsr ((11 : ℚ) + (2 : ℚ) / 4) 0xABCD) = (11 : ℚ) + (2 : ℚ) / 4 :=
  claim_C5_amended 11 2 0xABCD (by norm_num) (by norm_num) (by norm_num)

/-- C6: Vids in [0x7C, 0x7F] give exactly 0 V; every other Vid gives
`1.550 - 0.0125 * id` (the C doubles are modelled by exact rationals). -/
theorem claim_C6 (id : ℤ) :
    (0x7C ≤ id ∧ id ≤ 0x7F → voltage id = 0)
    ∧ (¬ (0x7C ≤ id ∧ id ≤ 0x7F) → voltage id = 1.550 - 0.0125 * id) := by
  constructor
  · rintro ⟨ha, hb⟩
    rw [voltage, if_pos ⟨hb, ha⟩]
  · intro h
    rw [voltage, if_neg (by tauto)]

/-- C6, checked at the boundary Vids 0x7C (off) and 0x28 (1.05 V). -/
theorem claim_C6_witness :
    voltage 0x7C = 0 ∧ voltage 0x28 = 1.550 - 0.0125 * (0x28 : ℤ) :=
  ⟨(claim_C6 0x7C).1 ⟨by norm_num, by norm_num⟩,
   (claim_C6 0x28).2 (by norm_num)⟩

/-- C7: with any 64-bit word written as `hi·2^9 + msd·2^4 + lsd`
(`msd < 32`, `lsd < 16`), `msrtodiv` returns `msd + lsd·0.25 + 1`; in
particular DidMSD = 0x0A, DidLSD = 0x2 decodes to 11.5. -/
theorem claim_C7 :
    (∀ hi msd lsd : ℕ, msd < 32 → lsd < 16 →
        msrtodiv (hi * 512 + msd * 16 + lsd)
          = (msd : ℚ) + (lsd : ℚ) * (1/4) + 1)
    ∧ msrtodiv (0x0A * 16 + 0x2) = 23 / 2 := by
  have key : ∀ hi msd lsd : ℕ, msd < 32 → lsd < 16 →
      msrtodiv (hi * 512 + msd * 16 + lsd)
        = (msd : ℚ) + (lsd : ℚ) * (1/4) + 1 := by
    intro hi msd lsd hm hl
    have e1 : ((hi * 512 + msd * 16 + lsd) >>> 4) &&& 0x1f = msd := by
      rw [Nat.shiftRight_eq_div_pow, show (0x1f : ℕ) = 2 ^ 5 - 1 from rfl,
        Nat.and_pow_two_sub_one_eq_mod]
      norm_num
      omega
    have e2 : (hi * 512 + msd * 16 + lsd) &&& 0xf = lsd := by
      rw [show (0xf : ℕ) = 2 ^ 4 - 1 from rfl, Nat.and_pow_two_sub_one_eq_mod]
      norm_num
      omega
    simp only [msrtodiv, e1, e2]
  refine ⟨key, ?_⟩
  have h := key 0 10 2 (by norm_num) (by norm_num)
  norm_num at h ⊢
  exact h

/-- C7, checked at hi = 7, msd = 5, lsd = 2 (divisor 6.5). -/
theorem claim_C7_witness :
    msrtodiv (7 * 512 + 5 * 16 + 2) = (5 : ℚ) + (2 : ℚ) * (1/4) + 1 :=
  claim_C7.1 7 5 2 (by norm_num) (by norm_num)

/-- C10: the `-c` report extracts bits [17:16], hence is always below 4, and
a hardware P-state p < 8 placed at bit 16 is reported as `p mod 4`. -/
theorem claim_C10 :
    (∀ val, currentPstateField val = (val >>> 16) % 4 ∧ currentPstateField val < 4)
    ∧ (∀ p, p < 8 → currentPstateField (p <<< 16) = p % 4) := by
  have key : ∀ val, currentPstateField val = (val >>> 16) % 4 := by
    intro val
    rw [currentPstateField, show (0x03 : ℕ) = 2 ^ 2 - 1 from rfl,
      Nat.and_pow_two_sub_one_eq_mod]
  refine ⟨fun val => ⟨key val, ?_⟩, fun p hp => ?_⟩
  · rw [key val]
    exact Nat.mod_lt _ (by norm_num)
  · rw [key (p <<< 16), Nat.shiftLeft_eq, Nat.shiftRight_eq_div_pow,
      Nat.mul_div_cancel _ (by positivity)]

/-- C10, checked at hardware P-state 5 (reported as 1). -/
theorem claim_C10_witness :
    currentPstateField (5 <<< 16) = 5 % 4 :=
  claim_C10.2 5 (by norm_num)

/-! ## Claim theorems: the register access layer -/

/-- C8: the claim as frozen is false.  When `open` succeeds but `lseek`
fails, `rdmsr` returns 1 without closing the descriptor (undervolt.c:389-392);
`wrmsr` likewise leaks the descriptor on a short write (undervolt.c:357-361). -/
theorem claim_C8_counterexample :
    ((rdmsr ⟨true, false, 8, true⟩).openedFd = true
      ∧ (rdmsr ⟨true, false, 8, true⟩).closedFd = false)
    ∧ ((wrmsr ⟨true, true, 0, true⟩).openedFd = true
      ∧ (wrmsr ⟨true, true, 0, true⟩).closedFd = false) := by decide

/-- C8 (amended): `rdmsr` and `wrmsr` acquire the descriptor exactly when
`open` succeeds, and close it exactly on the paths where `open`, `lseek` and
the full 8-byte transfer all succeed (including when `close` itself then
fails); on the seek-failure and short-transfer paths the descriptor is
leaked. -/
theorem claim_C8_amended (f : MsrFile) :
    ((rdmsr f).openedFd = f.openOk
      ∧ (rdmsr f).closedFd = (f.openOk && f.seekOk && decide (8 ≤ f.ioBytes)))
    ∧ ((wrmsr f).openedFd = f.openOk
      ∧ (wrmsr f).closedFd = (f.openOk && f.seekOk && decide (8 ≤ f.ioBytes))) := by
  obtain ⟨o, s, b, c⟩ := f
  rcases lt_or_ge b 8 with hb | hb <;>
    cases o <;> cases s <;> cases c <;>
      simp_all [rdmsr, wrmsr, not_lt.2, not_lt.1, le_of_lt]

/-! ## Orchestration helper lemmas -/

/-- A loop none of whose steps aborts produces the concatenation of its
step traces and does not abort. -/
theorem runAbortLoop_ok {α : Type} (step : α → List Event × Bool) :
    ∀ l : List α, (∀ a ∈ l, (step a).2 = true) →
      runAbortLoop step l = (l.flatMap fun a => (step a).1, true)
  | [], _ => rfl
  | a :: rest, h => by
    have ha := h a (List.mem_cons_self a rest)
    have hr := runAbortLoop_ok step rest fun b hb => h b (List.mem_cons_of_mem a hb)
    simp [runAbortLoop, ha, hr]

/-- The status register only ever yields a `maxPstate` below 8. -/
theorem maxPstate_le7 (hw : Hw) : maxPstate hw ≤ 7 := by
  have h : statusVal hw &&& 0x70 ≤ 0x70 := Nat.and_le_right
  rw [maxPstate, Nat.shiftRight_eq_div_pow]
  norm_num
  omega

/-- Membership in the `for(i = minPstate; i <= maxPstate; i++)` index list. -/
theorem mem_pstateIdxs (hw : Hw) (i : ℕ) :
    i ∈ pstateIdxs hw ↔ minPstate hw ≤ i ∧ i ≤ maxPstate hw := by
  rw [pstateIdxs]
  constructor
  · intro h
    obtain ⟨j, hj, rfl⟩ := List.mem_range'.1 h
    omega
  · intro ⟨h1, h2⟩
    exact List.mem_range'.2 ⟨i - minPstate hw, by omega, by omega⟩

/-- The eight P-state register addresses are pairwise distinct. -/
theorem aMSR_inj : ∀ i < 8, ∀ j < 8, aMSR i = aMSR j → i = j := by decide

/-- `procPReq` succeeds only on an index inside [0,8). -/
theorem procPReq_bounds {cfg cfg' : Config} {r : PReq}
    (h : procPReq cfg r = some cfg') : 0 ≤ r.pstateId ∧ r.pstateId < 8 := by
  by_cases hb : r.pstateId < 0 ∨ 8 ≤ r.pstateId
  · rw [procPReq, if_pos hb] at h; cases h
  · omega

/-- A successful `procPReq` records the requested vid (as `uint64_t`) at the
requested index. -/
theorem procPReq_vid {cfg cfg' : Config} {r : PReq}
    (h : procPReq cfg r = some cfg') :
    cfg'.vidToSet r.pstateId.toNat = toU64 r.vid := by
  by_cases hb : r.pstateId < 0 ∨ 8 ≤ r.pstateId
  · rw [procPReq, if_pos hb] at h; cases h
  · by_cases hd : cfg.vidToSet r.pstateId.toNat ≠ 0
    · rw [procPReq, if_neg hb, if_pos hd] at h; cases h
    · rw [procPReq, if_neg hb, if_neg hd] at h
      injection h with h'
      rw [← h']
      simp

/-- `procPReq` never clears an already-pending vid slot. -/
theorem procPReq_persist {cfg cfg' : Config} {r : PReq} {p : ℕ}
    (h : procPReq cfg r = some cfg') (hp : cfg.vidToSet p ≠ 0) :
    cfg'.vidToSet p ≠ 0 := by
  by_cases hb : r.pstateId < 0 ∨ 8 ≤ r.pstateId
  · rw [procPReq, if_pos hb] at h; cases h
  · by_cases hd : cfg.vidToSet r.pstateId.toNat ≠ 0
    · rw [procPReq, if_neg hb, if_pos hd] at h; cases h
    · rw [procPReq, if_neg hb, if_neg hd] at h
      injection h with h'
      have hne : p ≠ r.pstateId.toNat := by
        intro he
        exact hp (by rw [he]; simpa using hd)
      rw [← h']
      simpa [Function.update_noteq hne] using hp

/-- `procPReqs` never clears an already-pending vid slot. -/
theorem procPReqs_persist {p : ℕ} :
    ∀ (l : List PReq) (cfg cfg' : Config), procPReqs cfg l = some cfg' →
      cfg.vidToSet p ≠ 0 → cfg'.vidToSet p ≠ 0
  | [], cfg, cfg', h, hp => by
    simp only [procPReqs] at h
    injection h with h'
    rw [← h']; exact hp
  | r :: rest, cfg, cfg', h, hp => by
    simp only [procPReqs] at h
    cases hr : procPReq cfg r with
    | none => rw [hr] at h; cases h
    | some cfg2 =>
      rw [hr] at h
      exact procPReqs_persist rest cfg2 cfg' h (procPReq_persist hr hp)

/-- A `-p` option whose index already has a pending vid is fatal. -/
theorem procPReq_dup {cfg : Config} {r : PReq}
    (hb : ¬ (r.pstateId < 0 ∨ 8 ≤ r.pstateId))
    (hd : cfg.vidToSet r.pstateId.toNat ≠ 0) :
    procPReq cfg r = none := by
  rw [procPReq, if_neg hb, if_pos hd]

/-- Splitting the option list across an append. -/
theorem procPReqs_append :
    ∀ (l1 l2 : List PReq) (cfg : Config),
      procPReqs cfg (l1 ++ l2)
        = (procPReqs cfg l1).bind fun c => procPReqs c l2
  | [], l2, cfg => by simp [procPReqs]
  | r :: rest, l2, cfg => by
    simp only [List.cons_append, procPReqs]
    cases procPReq cfg r with
    | none => rfl
    | some c2 => exact procPReqs_append rest l2 c2

/-- Two `-p` options for the same index, the first with a vid that is
nonzero as a `uint64_t`, make the whole `getopt` loop fail. -/
theorem procPReqs_duplicate_none (l1 l2 l3 : List PReq) (r1 r2 : PReq)
    (hp : r2.pstateId = r1.pstateId) (hv : toU64 r1.vid ≠ 0) :
    procPReqs initConfig (l1 ++ r1 :: (l2 ++ r2 :: l3)) = none := by
  rw [procPReqs_append]
  cases h1 : procPReqs initConfig l1 with
  | none => rfl
  | some c1 =>
    simp only [Option.some_bind]
    simp only [procPReqs]
    cases hr1 : procPReq c1 r1 with
    | none => rfl
    | some c2 =>
      show procPReqs c2 (l2 ++ r2 :: l3) = none
      rw [procPReqs_append]
      cases h2 : procPReqs c2 l2 with
      | none => rfl
      | some c3 =>
        simp only [Option.some_bind, procPReqs]
        have hb := procPReq_bounds hr1
        have hnz : c2.vidToSet r1.pstateId.toNat ≠ 0 := by
          rw [procPReq_vid hr1]; exact hv
        have hnz3 : c3.vidToSet r1.pstateId.toNat ≠ 0 :=
          procPReqs_persist l2 c2 c3 h2 hnz
        rw [procPReq_dup (by omega) (by rw [hp]; exact hnz3)]

/-- Under an always-successful oracle, `mainRun` runs to completion: exit
status 0, and the trace is the concatenation of the five phases (status
read, range complaints, `-r` reads, per-edit read/write pairs, `-c` reads). -/
theorem mainRun_ok (reqs : List PReq) (readF currentF cpuIdOk : Bool)
    (ncpu : ℕ) (hw : Hw) (cfg : Config)
    (hcfg : procPReqs initConfig reqs = some cfg)
    (hr : ∀ c m, hw.readOk c m = true)
    (hwk : ∀ c m v, hw.writeOk c m v = true) :
    mainRun reqs readF currentF cpuIdOk ncpu hw =
      ([Event.readMsr 0 0xC0010061] ++ warnEvents cfg hw
        ++ (if readF then
              (pstateIdxs hw).flatMap (fun i => [Event.readMsr 0 (aMSR i)])
            else [])
        ++ ((pstateIdxs hw).flatMap fun i =>
              if cfg.vidToSet i ≠ 0 then
                (List.range ncpu).flatMap fun j =>
                  [Event.readMsr j (aMSR i),
                   Event.writeMsr j (aMSR i) (writeVal hw cfg j i)]
              else [])
        ++ (if currentF then
              (List.range ncpu).flatMap (fun i => [Event.readMsr i 0xC0010071])
            else []),
       0) := by
  have hwcs : ∀ i j, (writeCpuStep hw cfg i j).2 = true := by
    intro i j
    simp [writeCpuStep, hr j (aMSR i), hwk]
  have hws : ∀ i, (writeStep hw cfg ncpu i).2 = true := by
    intro i
    rw [writeStep]
    split
    · rw [runAbortLoop_ok _ _ fun j _ => hwcs i j]
    · rfl
  have hwst : ∀ i, (writeStep hw cfg ncpu i).1
      = (if cfg.vidToSet i ≠ 0 then
           (List.range ncpu).flatMap fun j =>
             [Event.readMsr j (aMSR i),
              Event.writeMsr j (aMSR i) (writeVal hw cfg j i)]
         else []) := by
    intro i
    rw [writeStep]
    split
    · rw [runAbortLoop_ok _ _ fun j _ => hwcs i j]
      simp [writeCpuStep, hr]
    · rfl
  have hwl := runAbortLoop_ok (writeStep hw cfg ncpu) (pstateIdxs hw)
    fun i _ => hws i
  have hrl := runAbortLoop_ok (readStep hw) (pstateIdxs hw)
    fun i _ => hr 0 (aMSR i)
  have hcl := runAbortLoop_ok (currentStep hw) (List.range ncpu)
    fun i _ => hr i 0xC0010071
  have hR : (if readF then runAbortLoop (readStep hw) (pstateIdxs hw)
        else (([] : List Event), true))
      = ((if readF then
            (pstateIdxs hw).flatMap (fun i => [Event.readMsr 0 (aMSR i)])
          else []), true) := by
    cases readF <;> simp [hrl, readStep]
  have hC : (if currentF then runAbortLoop (currentStep hw) (List.range ncpu)
        else (([] : List Event), true))
      = ((if currentF then
            (List.range ncpu).flatMap (fun i => [Event.readMsr i 0xC0010071])
          else []), true) := by
    cases currentF <;> simp [hcl, currentStep]
  have hW : runAbortLoop (writeStep hw cfg ncpu) (pstateIdxs hw)
      = ((pstateIdxs hw).flatMap fun i =>
           if cfg.vidToSet i ≠ 0 then
             (List.range ncpu).flatMap fun j =>
               [Event.readMsr j (aMSR i),
                Event.writeMsr j (aMSR i) (writeVal hw cfg j i)]
           else [], true) := by
    rw [hwl, show (fun i => (writeStep hw cfg ncpu i).1)
      = (fun i =>
          if cfg.vidToSet i ≠ 0 then
            (List.range ncpu).flatMap fun j =>
              [Event.readMsr j (aMSR i),
               Event.writeMsr j (aMSR i) (writeVal hw cfg j i)]
          else []) from funext hwst]
  simp only [mainRun, hcfg, hR, hC, hW, hr 0 0xC0010061]
  simp

/-! ## Claim theorems: orchestration -/

/-- C1 (code bug): `main` discards the verdict of `cpuIdCheck`
(undervolt.c:266), so a failing CPU-identity check changes nothing about
the run: the trace and exit status are identical for a pass and a fail
verdict, and with a fail verdict the program still reads the status MSR
(a hardware register access) and can exit with status 0 — the claim
requires a non-zero exit with no register access at all. -/
theorem claim_C1_verdict_ignored :
    (∀ reqs readF currentF ncpu hw,
        mainRun reqs readF currentF true ncpu hw
          = mainRun reqs readF currentF false ncpu hw)
    ∧ mainRun [] false false false 1 hwZero
        = ([Event.readMsr 0 0xC0010061], 0) :=
  ⟨fun _ _ _ _ _ => rfl, by decide⟩

/-- C2: the claim as frozen is false.  The duplicate test
(undervolt.c:251) is `vidToSet[pstateId] != 0`, so when the first edit of
the pair requests vid 0 (`-p 1:0`), the second edit of the same index is
accepted: the run below reports no configuration error (exit 0) and
performs a hardware write. -/
theorem claim_C2_counterexample :
    (mainRun [⟨1, 0, 0⟩, ⟨1, 0x25, 0⟩] false false true 1 hw20).2 = 0
    ∧ Event.writeMsr 0 0xC0010065 0x4A20
        ∈ (mainRun [⟨1, 0, 0⟩, ⟨1, 0x25, 0⟩] false false true 1 hw20).1 := by
  decide

/-- C2 (amended): for every pair of `-p` edit requests targeting the same
P-state index whose first request carries a vid that is nonzero as a
`uint64_t` (vid 0 collides with the "no edit" sentinel and escapes
detection), the second request causes a fatal configuration error before
any hardware access: the run produces an empty trace (zero reads, zero
writes, in particular zero hardware writes) and exits 1. -/
theorem claim_C2_amended (l1 l2 l3 : List PReq) (r1 r2 : PReq)
    (hp : r2.pstateId = r1.pstateId) (hv : toU64 r1.vid ≠ 0)
    (readF currentF cpuIdOk : Bool) (ncpu : ℕ) (hw : Hw) :
    mainRun (l1 ++ r1 :: (l2 ++ r2 :: l3)) readF currentF cpuIdOk ncpu hw
      = ([], 1) := by
  simp only [mainRun, procPReqs_duplicate_none l1 l2 l3 r1 r2 hp hv]

/-- C2 amended, checked on `-p 1:0x20 -p 1:0x25`. -/
theorem claim_C2_amended_witness :
    toU64 0x20 ≠ 0
    ∧ mainRun ([] ++ ⟨1, 0x20, 0⟩ :: ([] ++ ⟨1, 0x25, 0⟩ :: []))
        false false true 1 hw20 = ([], 1) :=
  ⟨by decide,
   claim_C2_amended [] [] [] ⟨1, 0x20, 0⟩ ⟨1, 0x25, 0⟩ rfl (by decide)
     false false true 1 hw20⟩

/-- C9: with a successfully parsed option list and an always-successful
oracle, a pending edit whose index k lies outside
[minPstate, maxPstate] produces the non-fatal range complaint for k, no
write to k's register ever happens, every pending edit inside the range is
still written (on cpu 0, when at least one cpu exists), and the run exits
with status 0. -/
theorem claim_C9 (reqs : List PReq) (readF currentF cpuIdOk : Bool)
    (ncpu : ℕ) (hw : Hw)
    (hsome : (procPReqs initConfig reqs).isSome = true)
    (hr : ∀ c m, hw.readOk c m = true)
    (hwk : ∀ c m v, hw.writeOk c m v = true)
    (k : ℕ) (hk8 : k < 8)
    (hkv : (cfgOf reqs).vidToSet k ≠ 0)
    (hout : maxPstate hw < k ∨ k < minPstate hw) :
    Event.rangeWarn k ∈ (mainRun reqs readF currentF cpuIdOk ncpu hw).1
    ∧ (∀ j v,
        Event.writeMsr j (aMSR k) v ∉ (mainRun reqs readF currentF cpuIdOk ncpu hw).1)
    ∧ (∀ i, minPstate hw ≤ i → i ≤ maxPstate hw →
        (cfgOf reqs).vidToSet i ≠ 0 → 0 < ncpu →
        Event.writeMsr 0 (aMSR i) (writeVal hw (cfgOf reqs) 0 i)
          ∈ (mainRun reqs readF currentF cpuIdOk ncpu hw).1)
    ∧ (mainRun reqs readF currentF cpuIdOk ncpu hw).2 = 0 := by
  obtain ⟨cfg, hcfg⟩ := Option.isSome_iff_exists.1 hsome
  have hcfgOf : cfgOf reqs = cfg := by rw [cfgOf, hcfg]; rfl
  rw [hcfgOf] at hkv ⊢
  rw [mainRun_ok reqs readF currentF cpuIdOk ncpu hw cfg hcfg hr hwk]
  refine ⟨?_, ?_, ?_, rfl⟩
  · -- the range complaint is in the warn phase
    have hwarn : Event.rangeWarn k ∈ warnEvents cfg hw := by
      rw [warnEvents]
      exact List.mem_filterMap.2
        ⟨k, List.mem_range.2 hk8, by rw [if_pos ⟨hkv, hout⟩]⟩
    simp [hwarn]
  · -- no phase writes k's register
    intro j v hmem
    simp only [List.mem_append] at hmem
    rcases hmem with (((h0 | hwn) | hre) | hwr) | hcu
    · simp at h0
    · obtain ⟨i, _, hi⟩ := List.mem_filterMap.1 hwn
      split at hi <;> simp_all
    · rcases readF with _ | _
      · simp at hre
      · rw [if_pos rfl] at hre
        obtain ⟨i, _, hi⟩ := List.mem_flatMap.1 hre
        rcases List.mem_cons.1 hi with h | h
        · exact Event.noConfusion h
        · exact absurd h (List.not_mem_nil _)
    · obtain ⟨i, hiIn, hi⟩ := List.mem_flatMap.1 hwr
      have hiRange := (mem_pstateIdxs hw i).1 hiIn
      have hi8 : i < 8 := by
        have := maxPstate_le7 hw
        omega
      split at hi
      · obtain ⟨j2, _, hj2⟩ := List.mem_flatMap.1 hi
        simp only [List.mem_cons, List.not_mem_nil, or_false] at hj2
        rcases hj2 with hj2 | hj2
        · exact Event.noConfusion hj2
        · have e2 : aMSR k = aMSR i := by injection hj2
          have : k = i := aMSR_inj k hk8 i hi8 e2
          omega
      · exact absurd hi (List.not_mem_nil _)
    · rcases currentF with _ | _
      · simp at hcu
      · rw [if_pos rfl] at hcu
        obtain ⟨i, _, hi⟩ := List.mem_flatMap.1 hcu
        rcases List.mem_cons.1 hi with h | h
        · exact Event.noConfusion h
        · exact absurd h (List.not_mem_nil _)
  · -- in-range pending edits are written
    intro i h1 h2 hiv hn
    have hIn : i ∈ pstateIdxs hw := (mem_pstateIdxs hw i).2 ⟨h1, h2⟩
    have hmem : Event.writeMsr 0 (aMSR i) (writeVal hw cfg 0 i)
        ∈ (pstateIdxs hw).flatMap fun i =>
            if cfg.vidToSet i ≠ 0 then
              (List.range ncpu).flatMap fun j =>
                [Event.readMsr j (aMSR i),
                 Event.writeMsr j (aMSR i) (writeVal hw cfg j i)]
            else [] := by
      refine List.mem_flatMap.2 ⟨i, hIn, ?_⟩
      rw [if_pos hiv]
      exact List.mem_flatMap.2 ⟨0, List.mem_range.2 hn, by simp⟩
    exact List.mem_append.2 (Or.inl (List.mem_append.2 (Or.inr hmem)))

/-- C9, checked on `-p 5:0x30 -p 1:0x28` with minPstate = 0, maxPstate = 2:
index 5 is warned about and never written, index 1 is written, exit 0. -/
theorem claim_C9_witness :
    Event.rangeWarn 5
        ∈ (mainRun [⟨5, 0x30, 0⟩, ⟨1, 0x28, 0⟩] false false true 1 hw20).1
    ∧ Event.writeMsr 0 (aMSR 1)
          (writeVal hw20 (cfgOf [⟨5, 0x30, 0⟩, ⟨1, 0x28, 0⟩]) 0 1)
        ∈ (mainRun [⟨5, 0x30, 0⟩, ⟨1, 0x28, 0⟩] false false true 1 hw20).1
    ∧ (mainRun [⟨5, 0x30, 0⟩, ⟨1, 0x28, 0⟩] false false true 1 hw20).2 = 0 := by
  have h := claim_C9 [⟨5, 0x30, 0⟩, ⟨1, 0x28, 0⟩] false false true 1 hw20
    (by decide) (fun _ _ => rfl) (fun _ _ _ => rfl) 5 (by decide) (by decide)
    (by decide)
  exact ⟨h.1, h.2.2.1 1 (by decide) (by decide) (by decide) (by decide), h.2.2.2⟩

/-- C8 amended, checked on a successful call and on a seek failure. -/
theorem claim_C8_amended_witness :
    (rdmsr ⟨true, true, 8, true⟩).openedFd = true
    ∧ (wrmsr ⟨true, false, 8, true⟩).closedFd
        = (true && false && decide ((8 : ℤ) ≤ 8)) :=
  ⟨(claim_C8_amended ⟨true, true, 8, true⟩).1.1,
   (claim_C8_amended ⟨true, false, 8, true⟩).2.2⟩
